import Mathlib

/-!
Shallow embedding of the parts of the scikit-fda sources needed to check the
specification claims:

* `src/skfda/preprocessing/smoothing/_linear.py` (`_LinearSmoother`),
* `src/skfda/ml/_neighbors_base.py` (`NeighborsBase` and its mixins),
* `src/skfda/datasets/_samples_generators.py` (the sample generators).

Machine floating-point values are modelled as exact numbers: ℚ where the
source only uses field operations (the neighbors module), ℝ where
transcendental functions occur (the generators).  Division is the total
(division-by-zero-is-zero) operation of Lean fields.  NumPy arrays become
functions out of `Fin n` or `ℕ`, batches become index functions, and Python
exceptions become `Except` values.
-/

namespace Smooth

/-- Embedding of `_LinearSmoother` after `fit`: `input_points_` and
`output_points_` are the grid points recorded at fit time, `output_points`
is the constructor argument, and `hat_matrix_impl` stands for the abstract
`_hat_matrix` method a subclass provides.  `G` is the type of grid-point
collections and `M` the type of hat matrices. -/
structure LinearSmoother (G M : Type) where
  output_points : Option G
  input_points_ : G
  output_points_ : G
  hat_matrix_impl : G → G → M

/-- Embedding of `_LinearSmoother.hat_matrix`.  As in the source, the
defaulted local variables are computed but the call to `_hat_matrix` passes
the fitted `input_points_` / `output_points_` fields. -/
def hat_matrix {G M : Type} (s : LinearSmoother G M)
    (input_points output_points : Option G) : M :=
  let ip := input_points.getD s.input_points_
  let op := output_points.getD s.output_points_
  s.hat_matrix_impl s.input_points_ s.output_points_

/-- Embedding of `_LinearSmoother.fit`: records the grid points of `X` as
`input_points_`, resolves `output_points_` from the constructor argument,
and caches `hat_matrix()`. -/
def fit {G M : Type} (outputPoints : Option G) (impl : G → G → M)
    (gridPoints : G) : LinearSmoother G M × M :=
  let s : LinearSmoother G M :=
    { output_points := outputPoints
      input_points_ := gridPoints
      output_points_ := outputPoints.getD gridPoints
      hat_matrix_impl := impl }
  (s, hat_matrix s none none)

/-- Claim C9: for every fitted `_LinearSmoother` and every choice of the
`input_points` and `output_points` arguments, `hat_matrix(input_points,
output_points)` returns the same matrix as `hat_matrix()` with no
arguments: the explicitly passed points are ignored and the points recorded
at fit time are always used. -/
theorem hat_matrix_ignores_explicit_points {G M : Type}
    (s : LinearSmoother G M) (input_points output_points : Option G) :
    hat_matrix s input_points output_points = hat_matrix s none none
      ∧ hat_matrix s input_points output_points
          = s.hat_matrix_impl s.input_points_ s.output_points_ :=
  ⟨rfl, rfl⟩

end Smooth

namespace Neighbors

/-- The Python exceptions appearing in `_neighbors_base.py`:
`NotFittedError` (from `sklearn_check_is_fitted`), `AttributeError` (access
to a missing instance attribute), and `ValueError` carrying the offending
sample indices printed by `_outlier_response`. -/
inductive PyErr where
  | notFitted
  | attributeError
  | valueError (indices : List ℕ)
  deriving DecidableEq

/-- The state owned by a model fitted through `NeighborsBase._fit` with a
non-precomputed metric: deep copies `_fit_X` / `_fit_y` (deep copying is
value semantics here), the `_fitted_with_distances` flag, and the data the
underlying sklearn index (`_estimator`) was fitted with: a distance matrix
and the targets. -/
structure FitState (α β : Type) (n : ℕ) where
  fitX : Fin n → α
  fitY : Fin n → β
  fitted_with_distances : Bool
  index_distances : Fin n → Fin n → ℚ
  index_y : Fin n → β

/-- Embedding of `PairwiseMetric(self.metric)(X)`: the pairwise distance
matrix of a training set under the configured metric. -/
def pairwise_metric {α : Type} {n : ℕ} (metric : α → α → ℚ)
    (X : Fin n → α) : Fin n → Fin n → ℚ :=
  fun i j => metric (X i) (X j)

/-- Embedding of `NeighborsBase._fit` for a non-precomputed metric with the
default `fit_with_zeros=True`: store deep copies of `X` and `y`, fit the
underlying index against the all-zero `[n, n]` placeholder matrix, and
leave `_fitted_with_distances` false. -/
def nb_fit {α β : Type} {n : ℕ} (metric : α → α → ℚ) (X : Fin n → α)
    (y : Fin n → β) : FitState α β n :=
  { fitX := X
    fitY := y
    fitted_with_distances := false
    index_distances := fun _ _ => 0
    index_y := y }

/-- Embedding of `NeighborsBase._refit_with_distances`: when the model was
fitted with the zero placeholder, refit the underlying index with the real
pairwise distance matrix over the stored training set and mark the state as
refitted; otherwise do nothing. -/
def refit_with_distances {α β : Type} {n : ℕ} (metric : α → α → ℚ)
    (s : FitState α β n) : FitState α β n :=
  if s.fitted_with_distances then s
  else
    { s with
        index_distances := pairwise_metric metric s.fitX
        index_y := s.fitY
        fitted_with_distances := true }

/-- A neighbors estimator instance: `fitted` is `some` exactly when the
`_estimator` attribute exists (i.e. `fit` has been called), and
`functional_attr` models the `_functional` attribute which
`NeighborsRegressorMixin.fit` assigns (absent before `fit`). -/
structure NeighborsEstimator (α β : Type) (n : ℕ) where
  fitted : Option (FitState α β n)
  functional_attr : Option Bool

/-- Embedding of `NeighborsBase._check_is_fitted`: `NotFittedError` when
the `_estimator` attribute is missing. -/
def check_is_fitted {α β : Type} {n : ℕ} (m : NeighborsEstimator α β n) :
    Except PyErr Unit :=
  match m.fitted with
  | none => .error .notFitted
  | some _ => .ok ()

/-- Embedding of `NeighborsBase._X_to_distances` for a non-precomputed
metric: the query-to-training distance matrix. -/
def X_to_distances {α β : Type} {n : ℕ} (metric : α → α → ℚ)
    (s : FitState α β n) (X : List α) : List (Fin n → ℚ) :=
  X.map fun x i => metric x (s.fitX i)

/-- Embedding of `KNeighborsMixin.kneighbors`: check fitted; with no query
set, transition to real distances and query the index against itself;
otherwise convert the query to distances.  `q` stands for the query of the
external sklearn index (a function of the matrix it was fitted with and the
optional query distances); the pair returned is the updated instance and
the delegated result. -/
def kneighbors {α β R : Type} {n : ℕ} (metric : α → α → ℚ)
    (q : (Fin n → Fin n → ℚ) → Option (List (Fin n → ℚ)) → R)
    (m : NeighborsEstimator α β n) (X : Option (List α)) :
    Except PyErr (NeighborsEstimator α β n × R) :=
  match m.fitted with
  | none => .error .notFitted
  | some s =>
    match X with
    | none =>
      let s2 := refit_with_distances metric s
      .ok ({ m with fitted := some s2 }, q s2.index_distances none)
    | some xs => .ok (m, q s.index_distances (some (X_to_distances metric s xs)))

/-- Embedding of `KNeighborsMixin.kneighbors_graph` (same fitted-check and
lazy-refit structure as `kneighbors`). -/
def kneighbors_graph {α β R : Type} {n : ℕ} (metric : α → α → ℚ)
    (q : (Fin n → Fin n → ℚ) → Option (List (Fin n → ℚ)) → R)
    (m : NeighborsEstimator α β n) (X : Option (List α)) :
    Except PyErr (NeighborsEstimator α β n × R) :=
  match m.fitted with
  | none => .error .notFitted
  | some s =>
    match X with
    | none =>
      let s2 := refit_with_distances metric s
      .ok ({ m with fitted := some s2 }, q s2.index_distances none)
    | some xs => .ok (m, q s.index_distances (some (X_to_distances metric s xs)))

/-- Embedding of `RadiusNeighborsMixin.radius_neighbors` (same fitted-check
and lazy-refit structure as `kneighbors`). -/
def radius_neighbors {α β R : Type} {n : ℕ} (metric : α → α → ℚ)
    (q : (Fin n → Fin n → ℚ) → Option (List (Fin n → ℚ)) → R)
    (m : NeighborsEstimator α β n) (X : Option (List α)) :
    Except PyErr (NeighborsEstimator α β n × R) :=
  match m.fitted with
  | none => .error .notFitted
  | some s =>
    match X with
    | none =>
      let s2 := refit_with_distances metric s
      .ok ({ m with fitted := some s2 }, q s2.index_distances none)
    | some xs => .ok (m, q s.index_distances (some (X_to_distances metric s xs)))

/-- Embedding of `RadiusNeighborsMixin.radius_neighbors_graph` (same
fitted-check and lazy-refit structure as `kneighbors`). -/
def radius_neighbors_graph {α β R : Type} {n : ℕ} (metric : α → α → ℚ)
    (q : (Fin n → Fin n → ℚ) → Option (List (Fin n → ℚ)) → R)
    (m : NeighborsEstimator α β n) (X : Option (List α)) :
    Except PyErr (NeighborsEstimator α β n × R) :=
  match m.fitted with
  | none => .error .notFitted
  | some s =>
    match X with
    | none =>
      let s2 := refit_with_distances metric s
      .ok ({ m with fitted := some s2 }, q s2.index_distances none)
    | some xs => .ok (m, q s.index_distances (some (X_to_distances metric s xs)))

/-- Claim C4: `fit` with a non-precomputed metric stores deep copies of `X`
and `y` and fits the underlying index against an all-zero `[n, n]`
placeholder distance matrix; a `kneighbors` / `radius_neighbors` / graph
call given no explicit query set first triggers `_refit_with_distances`,
which refits the index with the real pairwise distance matrix over the
stored training set and marks the state as refitted, and which is a no-op
when already refitted: applying the transition twice equals applying it
once. -/
theorem fit_lazy_refit_laws {α β : Type} {n : ℕ} (metric : α → α → ℚ)
    (X : Fin n → α) (y : Fin n → β) :
    (nb_fit metric X y).fitX = X
      ∧ (nb_fit metric X y).fitY = y
      ∧ (nb_fit metric X y).index_distances = (fun _ _ => (0 : ℚ))
      ∧ (nb_fit metric X y).fitted_with_distances = false
      ∧ (refit_with_distances metric (nb_fit metric X y)).index_distances
          = pairwise_metric metric X
      ∧ (refit_with_distances metric (nb_fit metric X y)).fitted_with_distances
          = true
      ∧ (∀ s : FitState α β n,
          refit_with_distances metric (refit_with_distances metric s)
            = refit_with_distances metric s)
      ∧ (∀ (R : Type) (q : (Fin n → Fin n → ℚ) → Option (List (Fin n → ℚ)) → R)
            (s : FitState α β n) (fa : Option Bool),
          kneighbors metric q ⟨some s, fa⟩ none
              = .ok (⟨some (refit_with_distances metric s), fa⟩,
                  q (refit_with_distances metric s).index_distances none)
            ∧ radius_neighbors metric q ⟨some s, fa⟩ none
              = .ok (⟨some (refit_with_distances metric s), fa⟩,
                  q (refit_with_distances metric s).index_distances none)
            ∧ kneighbors_graph metric q ⟨some s, fa⟩ none
              = .ok (⟨some (refit_with_distances metric s), fa⟩,
                  q (refit_with_distances metric s).index_distances none)
            ∧ radius_neighbors_graph metric q ⟨some s, fa⟩ none
              = .ok (⟨some (refit_with_distances metric s), fa⟩,
                  q (refit_with_distances metric s).index_distances none)) := by
  refine ⟨rfl, rfl, rfl, rfl, ?_, ?_, ?_, ?_⟩
  · simp [refit_with_distances, nb_fit]
  · simp [refit_with_distances, nb_fit]
  · intro s
    cases hb : s.fitted_with_distances <;>
      simp [refit_with_distances, hb]
  · intro R q s fa
    exact ⟨rfl, rfl, rfl, rfl⟩

/-- Embedding of `NeighborsRegressorMixin._distance_weights` (the values it
returns): reciprocal distances, except that when some distance is exactly
zero the zero entries get weight 1 and all other entries get weight 0. -/
def distance_weights {k : ℕ} (distance : Fin k → ℚ) : Fin k → ℚ :=
  if ∃ i, distance i = 0 then fun i => if distance i = 0 then 1 else 0
  else fun i => 1 / distance i

/-- Embedding of `_distance_weights` together with its effect on the
caller: the source aliases `weights = distance` and assigns through the
alias in the any-zero branch, so the triple returned here is (returned
array values, the input array's values after the call, whether the
returned array is the same object as the input array). -/
def distance_weights_effect {k : ℕ} (distance : Fin k → ℚ) :
    (Fin k → ℚ) × (Fin k → ℚ) × Bool :=
  if ∃ i, distance i = 0 then
    ((fun i => if distance i = 0 then 1 else 0),
      (fun i => if distance i = 0 then 1 else 0), true)
  else ((fun i => 1 / distance i), distance, false)

/-- Embedding of `NeighborsRegressorMixin._average` with weights: the
weights are normalized to sum to 1 and the (grid-valued) neighbor targets
are weighted-summed.  `ι` indexes the evaluation grid of a functional
target. -/
def weighted_average {ι : Type} {k : ℕ} (y : Fin k → ι → ℚ)
    (w : Fin k → ℚ) : ι → ℚ :=
  fun t => ∑ j, y j t * (w j / ∑ j2, w j2)

/-- Embedding of `NeighborsRegressorMixin._average` without weights:
`np.mean` over the neighbor targets. -/
def uniform_average {ι : Type} {k : ℕ} (y : Fin k → ι → ℚ) : ι → ℚ :=
  fun t => (∑ j, y j t) / k

/-- The `weights` constructor parameter: `"uniform"`, `"distance"`, or a
custom callable from distance vectors to weight vectors. -/
inductive WeightsChoice where
  | uniform
  | distance
  | custom (f : (k : ℕ) → (Fin k → ℚ) → Fin k → ℚ)

/-- Embedding of `NeighborsRegressorMixin._prediction_from_neighbors`. -/
def prediction_from_neighbors (ι : Type) {k : ℕ} (wc : WeightsChoice)
    (neighbors : Fin k → ι → ℚ) (distance : Fin k → ℚ) : ι → ℚ :=
  match wc with
  | .uniform => uniform_average neighbors
  | .distance => weighted_average neighbors (distance_weights distance)
  | .custom f => weighted_average neighbors (f k distance)

/-- Claim C10: when the distance vector passed to `_distance_weights`
contains an exact zero, the function mutates the input array in place
(writing 1 at zero entries and 0 at all other entries) and returns the same
array object; when no entry is zero, a fresh reciprocal array is returned
and the input array is left unchanged. -/
theorem distance_weights_frame_effect {k : ℕ} (distance : Fin k → ℚ) :
    ((∃ i, distance i = 0) →
        (distance_weights_effect distance).2.1
            = (fun i => if distance i = 0 then 1 else 0)
          ∧ (distance_weights_effect distance).2.2 = true
          ∧ (distance_weights_effect distance).1
              = (distance_weights_effect distance).2.1)
      ∧ ((∀ i, distance i ≠ 0) →
          (distance_weights_effect distance).1 = (fun i => 1 / distance i)
            ∧ (distance_weights_effect distance).2.1 = distance
            ∧ (distance_weights_effect distance).2.2 = false) := by
  constructor
  · intro h
    rw [distance_weights_effect, if_pos h]
    exact ⟨rfl, rfl, rfl⟩
  · intro h
    have hne : ¬ ∃ i, distance i = 0 := by
      rintro ⟨i, hi⟩
      exact h i hi
    rw [distance_weights_effect, if_neg hne]
    exact ⟨rfl, rfl, rfl⟩

/-- Witness for claim C10 at concrete inputs. -/
theorem distance_weights_frame_effect_witness :
    (distance_weights_effect
        (fun i : Fin 2 => if i = 0 then (0 : ℚ) else 2)).2.2 = true
      ∧ (distance_weights_effect (fun _ : Fin 2 => (3 : ℚ))).2.2 = false := by
  constructor
  · exact ((distance_weights_frame_effect
      (fun i : Fin 2 => if i = 0 then (0 : ℚ) else 2)).1
        ⟨0, by norm_num⟩).2.1
  · exact ((distance_weights_frame_effect (fun _ : Fin 2 => (3 : ℚ))).2
      (fun i => by norm_num)).2.2

/-- Claim C3: with `weights='distance'` the weight of each neighbor is the
reciprocal of its distance, except that when some distance is exactly zero
every zero-distance neighbor gets weight 1 and every other neighbor gets
weight 0; consequently, for a query at distance 0 from exactly one training
point and nonzero distance from the rest, the prediction equals that
training point's target exactly. -/
theorem distance_weighting_law (ι : Type) {k : ℕ} :
    (∀ d : Fin k → ℚ, (∀ i, d i ≠ 0) →
        distance_weights d = fun i => 1 / d i)
      ∧ (∀ d : Fin k → ℚ, (∃ i, d i = 0) →
          distance_weights d = fun i => if d i = 0 then 1 else 0)
      ∧ (∀ (d : Fin k → ℚ) (y : Fin k → ι → ℚ) (i0 : Fin k),
          d i0 = 0 → (∀ j, j ≠ i0 → d j ≠ 0) →
          prediction_from_neighbors ι .distance y d = y i0) := by
  refine ⟨?_, ?_, ?_⟩
  · intro d h
    have hne : ¬ ∃ i, d i = 0 := by
      rintro ⟨i, hi⟩
      exact h i hi
    rw [distance_weights, if_neg hne]
  · intro d h
    rw [distance_weights, if_pos h]
  · intro d y i0 h0 hrest
    have hw : distance_weights d = fun j => if j = i0 then (1 : ℚ) else 0 := by
      rw [distance_weights, if_pos ⟨i0, h0⟩]
      funext j
      by_cases hj : j = i0
      · subst hj
        simp [h0]
      · simp [hrest j hj, hj]
    funext t
    show weighted_average y (distance_weights d) t = y i0 t
    rw [hw]
    unfold weighted_average
    have hs : (∑ j2 : Fin k, if j2 = i0 then (1 : ℚ) else 0) = 1 := by
      simp
    rw [hs]
    simp only [div_one, mul_ite, mul_one, mul_zero]
    simp

/-- Embedding of `np.where([len(n) == 0 for n in neighbors])[0]` computed
by `_outlier_response`: the indices of the query samples whose neighbor set
is empty. -/
def empty_indices (neighbors : List (List ℕ)) : List ℕ :=
  (List.range neighbors.length).filter fun i => (neighbors.getD i []).isEmpty

/-- Embedding of `NeighborsRegressorMixin._outlier_response`: if no
`outlier_response` attribute is configured, raise `ValueError` naming the
indices of all query samples with empty neighbor sets; otherwise return the
configured response. -/
def outlier_response (ι : Type) (outlier : Option (ι → ℚ))
    (neighbors : List (List ℕ)) : Except PyErr (ι → ℚ) :=
  match outlier with
  | none => .error (.valueError (empty_indices neighbors))
  | some r => .ok r

/-- The `self._fit_y[idx]` / `distances[i]` step of `_functional_predict`:
select the neighbor targets by index and feed them, with the matching
distances, to `_prediction_from_neighbors`. -/
def prediction_from_neighbors_list (ι : Type) (wc : WeightsChoice)
    (fitY : List (ι → ℚ)) (idx : List ℕ) (d : List ℚ) : ι → ℚ :=
  prediction_from_neighbors ι wc
    (fun j : Fin idx.length => fitY.getD (idx.get j) fun _ => 0)
    (fun j : Fin idx.length => d.getD j.1 0)

/-- The per-sample loop of `NeighborsRegressorMixin._functional_predict`
over the `(neighbors, distances)` pairs returned by the neighbor query:
a sample with an empty neighbor set resolves through `_outlier_response`
(which may raise), any other sample through
`_prediction_from_neighbors`; the per-sample predictions are concatenated
in query order.  A raised error aborts the whole call with no batch
returned, as a Python exception does. -/
def functional_predict_aux (ι : Type) (wc : WeightsChoice)
    (fitY : List (ι → ℚ)) (outlier : Option (ι → ℚ))
    (allNeighbors : List (List ℕ)) :
    List (List ℕ × List ℚ) → Except PyErr (List (ι → ℚ))
  | [] => .ok []
  | (idx, dists) :: rest =>
    match (if idx.isEmpty then outlier_response ι outlier allNeighbors
           else .ok (prediction_from_neighbors_list ι wc fitY idx dists)) with
    | .error e => .error e
    | .ok p =>
      match functional_predict_aux ι wc fitY outlier allNeighbors rest with
      | .error e => .error e
      | .ok ps => .ok (p :: ps)

/-- Embedding of `NeighborsRegressorMixin._functional_predict` downstream
of the neighbor query: `queries` is the list of per-query-sample
`(neighbor index set, distances)` pairs. -/
def functional_predict (ι : Type) (wc : WeightsChoice)
    (fitY : List (ι → ℚ)) (outlier : Option (ι → ℚ))
    (queries : List (List ℕ × List ℚ)) : Except PyErr (List (ι → ℚ)) :=
  functional_predict_aux ι wc fitY outlier (queries.map Prod.fst) queries

/-- With a configured outlier response the functional-prediction loop never
raises: every query sample yields either the outlier response (empty
neighbor set) or an aggregated prediction. -/
theorem functional_predict_aux_of_some (ι : Type) (wc : WeightsChoice)
    (fitY : List (ι → ℚ)) (r : ι → ℚ) (allNeighbors : List (List ℕ))
    (rest : List (List ℕ × List ℚ)) :
    functional_predict_aux ι wc fitY (some r) allNeighbors rest
      = .ok (rest.map fun p =>
          if p.1.isEmpty then r
          else prediction_from_neighbors_list ι wc fitY p.1 p.2) := by
  induction rest with
  | nil => rfl
  | cons hd tl ih =>
    obtain ⟨idx, dists⟩ := hd
    cases he : idx.isEmpty with
    | true =>
      have hnil : idx = [] := List.isEmpty_iff.1 he
      simp [functional_predict_aux, he, outlier_response, ih, hnil]
    | false =>
      have hnil : idx ≠ [] := by
        intro hc
        rw [hc] at he
        simp at he
      simp [functional_predict_aux, he, ih, hnil]

/-- With no outlier response, the loop raises `ValueError` with the indices
of all empty neighbor sets as soon as it reaches an empty one. -/
theorem functional_predict_aux_error_of_empty (ι : Type) (wc : WeightsChoice)
    (fitY : List (ι → ℚ)) (allNeighbors : List (List ℕ))
    (rest : List (List ℕ × List ℚ)) (hmem : ∃ p ∈ rest, p.1 = []) :
    functional_predict_aux ι wc fitY none allNeighbors rest
      = .error (.valueError (empty_indices allNeighbors)) := by
  induction rest with
  | nil => simp at hmem
  | cons hd tl ih =>
    obtain ⟨idx, dists⟩ := hd
    cases he : idx.isEmpty with
    | true => simp [functional_predict_aux, he, outlier_response]
    | false =>
      obtain ⟨p, hp, hpe⟩ := hmem
      rcases List.mem_cons.1 hp with heq | hmem2
      · subst heq
        simp only at hpe
        subst hpe
        simp at he
      · simp [functional_predict_aux, he, ih ⟨p, hmem2, hpe⟩]

/-- The indices named by `_outlier_response` are exactly the positions of
the empty neighbor sets. -/
theorem mem_empty_indices (neighbors : List (List ℕ)) (j : ℕ) :
    j ∈ empty_indices neighbors
      ↔ ∃ h : j < neighbors.length, neighbors.get ⟨j, h⟩ = [] := by
  unfold empty_indices
  rw [List.mem_filter, List.mem_range]
  constructor
  · rintro ⟨hlt, hemp⟩
    refine ⟨hlt, ?_⟩
    rw [List.getD_eq_get _ _ hlt] at hemp
    exact List.isEmpty_iff.1 hemp
  · rintro ⟨hlt, hget⟩
    refine ⟨hlt, ?_⟩
    rw [List.getD_eq_get _ _ hlt, hget]
    rfl

/-- Claim C5: in functional-response prediction, if the neighbor query
returns an empty neighbor set for some query samples and no outlier
response is configured, `predict` fails with an error naming exactly the
indices of the query samples that received no neighbors and no prediction
batch is returned; if an outlier response is configured, it is used as the
prediction for each such sample. -/
theorem functional_predict_outlier_handling (ι : Type) (wc : WeightsChoice)
    (fitY : List (ι → ℚ)) (queries : List (List ℕ × List ℚ)) :
    ((∃ p ∈ queries, p.1 = []) →
        functional_predict ι wc fitY none queries
            = .error (.valueError (empty_indices (queries.map Prod.fst)))
          ∧ ∀ j, j ∈ empty_indices (queries.map Prod.fst)
              ↔ ∃ h : j < queries.length, (queries.get ⟨j, h⟩).1 = [])
      ∧ (∀ r : ι → ℚ, ∃ ps,
          functional_predict ι wc fitY (some r) queries = .ok ps
            ∧ ps.length = queries.length
            ∧ ∀ (j : ℕ) (h : j < queries.length),
                (queries.get ⟨j, h⟩).1 = [] → ps.getD j (fun _ => 0) = r) := by
  constructor
  · intro hmem
    constructor
    · exact functional_predict_aux_error_of_empty ι wc fitY
        (queries.map Prod.fst) queries hmem
    · intro j
      rw [mem_empty_indices]
      constructor
      · rintro ⟨hlt, hget⟩
        rw [List.length_map] at hlt
        refine ⟨hlt, ?_⟩
        rw [List.get_map] at hget
        exact hget
      · rintro ⟨hlt, hget⟩
        refine ⟨by simpa using hlt, ?_⟩
        rw [List.get_map]
        exact hget
  · intro r
    have hok := functional_predict_aux_of_some ι wc fitY r
      (queries.map Prod.fst) queries
    refine ⟨_, hok, by simp, ?_⟩
    intro j h hempty
    have hj2 : j < (queries.map fun p =>
        if p.1.isEmpty then r
        else prediction_from_neighbors_list ι wc fitY p.1 p.2).length := by
      simpa using h
    rw [List.getD_eq_get _ _ hj2, List.get_map, hempty]
    rfl

/-- Witness for claim C5 at concrete inputs. -/
theorem functional_predict_outlier_handling_witness :
    functional_predict Unit .uniform [] none [([], [])]
        = .error (.valueError [0])
      ∧ (∃ ps, functional_predict Unit .uniform [] (some fun _ => 1) [([], [])]
          = .ok ps ∧ ps.getD 0 (fun _ => 0) = fun _ => 1) := by
  constructor
  · have h := ((functional_predict_outlier_handling Unit .uniform []
      [([], [])]).1 ⟨([], []), by simp, rfl⟩).1
    simpa [empty_indices] using h
  · obtain ⟨ps, h1, _, h3⟩ :=
      (functional_predict_outlier_handling Unit .uniform [] [([], [])]).2
        (fun _ => 1)
    exact ⟨ps, h1, h3 0 (by norm_num) rfl⟩

/-- Embedding of `NeighborsClassifierMixin.predict`: check fitted, convert
the query to distances, delegate to the underlying index predictor `q`. -/
def predict_classifier {α β R : Type} {n : ℕ} (metric : α → α → ℚ)
    (q : (Fin n → Fin n → ℚ) → List (Fin n → ℚ) → R)
    (m : NeighborsEstimator α β n) (X : List α) : Except PyErr R :=
  match m.fitted with
  | none => .error .notFitted
  | some s => .ok (q s.index_distances (X_to_distances metric s X))

/-- Embedding of `NeighborsClassifierMixin.predict_proba` (same structure
as `predict`). -/
def predict_proba {α β R : Type} {n : ℕ} (metric : α → α → ℚ)
    (q : (Fin n → Fin n → ℚ) → List (Fin n → ℚ) → R)
    (m : NeighborsEstimator α β n) (X : List α) : Except PyErr R :=
  match m.fitted with
  | none => .error .notFitted
  | some s => .ok (q s.index_distances (X_to_distances metric s X))

/-- Embedding of `NeighborsRegressorMixin.predict`: check fitted first,
then dispatch on the `_functional` attribute.  `qf` stands for
`_functional_predict` and `qm` for `_multivariate_predict` (delegation to
the external index). -/
def predict_regressor {α β R : Type} {n : ℕ} (metric : α → α → ℚ)
    (qf : FitState α β n → List α → R)
    (qm : FitState α β n → List (Fin n → ℚ) → R)
    (m : NeighborsEstimator α β n) (X : List α) : Except PyErr R :=
  match m.fitted with
  | none => .error .notFitted
  | some s =>
    match m.functional_attr with
    | none => .error .attributeError
    | some true => .ok (qf s X)
    | some false => .ok (qm s (X_to_distances metric s X))

/-- Embedding of `NeighborsRegressorMixin.score`.  The source contains no
`_check_is_fitted` call here: its first statement reads
`self._functional`, an attribute assigned only in `fit`, so on an unfitted
instance the attribute access itself raises `AttributeError`.  The nested
fitted checks model the `self.predict(X)` call performed inside
`_functional_score` and inside the sklearn multivariate `score`; the
numeric score bodies are abstracted as `fscore` / `mscore`. -/
def score_regressor {α β : Type} {n : ℕ}
    (fscore mscore : FitState α β n → List α → List β → ℚ)
    (m : NeighborsEstimator α β n) (X : List α) (y : List β) :
    Except PyErr ℚ :=
  match m.functional_attr with
  | none => .error .attributeError
  | some true =>
    match m.fitted with
    | none => .error .notFitted
    | some s => .ok (fscore s X y)
  | some false =>
    match m.fitted with
    | none => .error .notFitted
    | some s => .ok (mscore s X y)

/-- A concrete estimator on which `fit` has never been called: neither the
`_estimator` nor the `_functional` attribute exists. -/
def unfitted_example : NeighborsEstimator Unit Unit 0 := ⟨none, none⟩

/-- Claim C6 counterexample: `score` invoked before `fit` raises
`AttributeError` (reading the missing `_functional` attribute), not
`NotFittedError`, so not every query/predict/score operation raises
`NotFittedError` before `fit`. -/
theorem score_before_fit_not_notfitted :
    score_regressor (fun _ _ _ => (0 : ℚ)) (fun _ _ _ => 0)
        unfitted_example [] [] = .error .attributeError
      ∧ (Except.error PyErr.attributeError : Except PyErr ℚ)
          ≠ .error .notFitted := by
  constructor
  · rfl
  · intro h
    injection h with h2
    exact absurd h2 (by decide)

/-- Claim C6 (amended): every query and predict operation
(`kneighbors`, `kneighbors_graph`, `radius_neighbors`,
`radius_neighbors_graph`, classifier `predict` / `predict_proba`,
regressor `predict`) invoked before `fit` raises `NotFittedError` and
leaves the instance unfitted, but the regressor's `score` instead raises
`AttributeError` because it reads the `_functional` attribute (assigned
only in `fit`) without any prior fitted check. -/
theorem unfitted_operations_error {α β : Type} {n : ℕ} (R : Type)
    (metric : α → α → ℚ)
    (q : (Fin n → Fin n → ℚ) → Option (List (Fin n → ℚ)) → R)
    (qd : (Fin n → Fin n → ℚ) → List (Fin n → ℚ) → R)
    (qf : FitState α β n → List α → R)
    (qm : FitState α β n → List (Fin n → ℚ) → R)
    (fscore mscore : FitState α β n → List α → List β → ℚ)
    (m : NeighborsEstimator α β n) (X : List α) (Xq : Option (List α))
    (y : List β) (hfit : m.fitted = none)
    (hattr : m.functional_attr = none) :
    kneighbors metric q m Xq = .error .notFitted
      ∧ kneighbors_graph metric q m Xq = .error .notFitted
      ∧ radius_neighbors metric q m Xq = .error .notFitted
      ∧ radius_neighbors_graph metric q m Xq = .error .notFitted
      ∧ predict_classifier metric qd m X = .error .notFitted
      ∧ predict_proba metric qd m X = .error .notFitted
      ∧ predict_regressor metric qf qm m X = .error .notFitted
      ∧ score_regressor fscore mscore m X y = .error .attributeError := by
  obtain ⟨mf, ma⟩ := m
  change mf = none at hfit
  change ma = none at hattr
  subst hfit
  subst hattr
  exact ⟨rfl, rfl, rfl, rfl, rfl, rfl, rfl, rfl⟩

/-- Witness for claim C6 (amended) at a concrete unfitted instance. -/
theorem unfitted_operations_error_witness :
    kneighbors (fun _ _ => (0 : ℚ)) (fun _ _ => ()) unfitted_example none
        = .error .notFitted
      ∧ score_regressor (fun _ _ _ => (1 : ℚ)) (fun _ _ _ => 1)
          unfitted_example [] [] = .error .attributeError := by
  have h := unfitted_operations_error Unit (fun _ _ => (0 : ℚ))
    (fun _ _ => ()) (fun _ _ => ()) (fun _ _ => ()) (fun _ _ => ())
    (fun _ _ _ => (1 : ℚ)) (fun _ _ _ => (1 : ℚ)) unfitted_example []
    none [] rfl rfl
  exact ⟨h.1, h.2.2.2.2.2.2.2⟩

/-- Witness for claim C3 at concrete inputs. -/
theorem distance_weighting_law_witness :
    prediction_from_neighbors Unit .distance
        (fun i : Fin 2 => fun _ => if i = 0 then (3 : ℚ) else 5)
        (fun i : Fin 2 => if i = 0 then (0 : ℚ) else 2)
      = (fun i : Fin 2 => fun _ => if i = 0 then (3 : ℚ) else 5) 0 := by
  exact (distance_weighting_law Unit).2.2
    (fun i : Fin 2 => if i = 0 then (0 : ℚ) else 2)
    (fun i : Fin 2 => fun _ => if i = 0 then (3 : ℚ) else 5)
    0 (by norm_num) (by decide)

end Neighbors

/-- Embedding of `np.linspace(a, b, num)` at index `k`: the uniform grid
value `a + (b - a) * k / (num - 1)`. -/
noncomputable def linspace (a b : ℝ) (num k : ℕ) : ℝ :=
  a + (b - a) * k / ((num : ℝ) - 1)

namespace EulerMaruyama

/-- The step size of `euler_maruyama`: `times[1] - times[0]` on the uniform
grid `linspace(start, stop, n_grid_points)`. -/
noncomputable def step_size (start stop : ℝ) (ng : ℕ) : ℝ :=
  linspace start stop ng 1 - linspace start stop ng 0

/-- Embedding of `np.eye(dim_codomain, dim_noise)` entrywise (indices out
of range never arise in the bounded statements). -/
noncomputable def eye (i j : ℕ) : ℝ :=
  if i = j then 1 else 0

/-- Embedding of `formatted_diffusion` in the 1-D diffusion branch of
`euler_maruyama` for a scalar-valued diffusion callable (the
`len(test_diffusion_dim) == 1` case): the scalar output is broadcast
against the `np.eye(dim_codomain, dim_noise)` formatting matrix.  The
batch state is a function (sample, codomain dim) → value and the result is
indexed (sample, codomain dim, noise dim). -/
noncomputable def formatted_diffusion_scalar
    (diffusion : ℝ → (ℕ → ℕ → ℝ) → ℝ) :
    ℝ → (ℕ → ℕ → ℝ) → ℕ → ℕ → ℕ → ℝ :=
  fun t x _s i j => diffusion t x * eye i j

/-- Embedding of the time-stepping loop of `euler_maruyama`: `em_data ... n
s i` is `data_matrix[s, n, i]`.  Step `n` performs
`X[n+1] = X[n] + h * drift(t_n, X[n]) +
(Σ_j fdiff(t_n, X[n])[s, i, j] * noise[s, n, j]) * sqrt(h)`,
the `np.einsum` contraction of the formatted diffusion against the
pre-drawn noise.  `drift` acts on the whole batch (covering NumPy
broadcasting) and `fdiff` is the formatted diffusion. -/
noncomputable def em_data (start stop : ℝ) (ng dn : ℕ)
    (drift : ℝ → (ℕ → ℕ → ℝ) → ℕ → ℕ → ℝ)
    (fdiff : ℝ → (ℕ → ℕ → ℝ) → ℕ → ℕ → ℕ → ℝ)
    (noise : ℕ → ℕ → ℕ → ℝ) (init : ℕ → ℕ → ℝ) : ℕ → ℕ → ℕ → ℝ
  | 0 => init
  | n + 1 => fun s i =>
      em_data start stop ng dn drift fdiff noise init n s i
        + step_size start stop ng
            * drift (linspace start stop ng n)
                (em_data start stop ng dn drift fdiff noise init n) s i
        + (∑ j ∈ Finset.range dn,
              fdiff (linspace start stop ng n)
                  (em_data start stop ng dn drift fdiff noise init n) s i j
                * noise s n j)
            * Real.sqrt (step_size start stop ng)

/-- With identically-zero drift and diffusion each Euler–Maruyama step
leaves the state unchanged. -/
theorem em_data_zero_step (start stop : ℝ) (ng dn : ℕ)
    (noise : ℕ → ℕ → ℕ → ℝ) (init : ℕ → ℕ → ℝ) (n s i : ℕ) :
    em_data start stop ng dn (fun _ _ _ _ => 0)
        (formatted_diffusion_scalar fun _ _ => 0) noise init n s i
      = init s i := by
  induction n with
  | zero => rfl
  | succ n ih =>
    simp [em_data, formatted_diffusion_scalar, ih]

/-- Claim C1: for every resolved initial condition, `n_samples ≥ 1`,
`start < stop` and `n_grid_points ≥ 2`, `euler_maruyama` with identically
zero drift and identically zero diffusion returns trajectories that are
constant: at every grid point the value equals that sample's resolved
initial value. -/
theorem euler_maruyama_zero_drift_diffusion_constant
    (ns ng d dn : ℕ) (start stop : ℝ) (noise : ℕ → ℕ → ℕ → ℝ)
    (init : ℕ → ℕ → ℝ) (h1 : 1 ≤ ns) (h2 : 2 ≤ ng) (h3 : start < stop) :
    ∀ n < ng, ∀ s < ns, ∀ i < d,
      em_data start stop ng dn (fun _ _ _ _ => 0)
          (formatted_diffusion_scalar fun _ _ => 0) noise init n s i
        = init s i := by
  intro n _ s _ i _
  exact em_data_zero_step start stop ng dn noise init n s i

/-- Witness for claim C1 at concrete inputs. -/
theorem euler_maruyama_zero_drift_diffusion_constant_witness :
    ((1 : ℕ) ≤ 1 ∧ (2 : ℕ) ≤ 2 ∧ (0 : ℝ) < 1)
      ∧ em_data 0 1 2 1 (fun _ _ _ _ => 0)
          (formatted_diffusion_scalar fun _ _ => 0) (fun _ _ _ => 0)
          (fun _ _ => 7) 1 0 0 = 7 := by
  refine ⟨⟨le_refl 1, le_refl 2, by norm_num⟩, ?_⟩
  exact euler_maruyama_zero_drift_diffusion_constant 1 2 1 1 0 1
    (fun _ _ _ => 0) (fun _ _ => 7) (le_refl 1) (le_refl 2) (by norm_num)
    1 (by norm_num) 0 (by norm_num) 0 (by norm_num)

end EulerMaruyama

namespace RandomState

/-- The injected random-state handle, idealized as the stream of standard
normal draws it produces, consumed sequentially: `normal(mean, std, size)`
returns `mean + std * g t` over the next `size` stream positions `t`, and
`multivariate_normal(0, std * I, size)` returns `sqrt(std) * g t`
componentwise.  Two handles with the same seed/state produce the same
stream. -/
def Stream2 : Type := ℕ → ℝ

/-- Embedding of `make_sinusoidal_process` at sample `i`, grid point `j`:
`alpha[i] * sin((2π/period) * t[j] + phi[i]) + error[i, j]`, where the
amplitude draws occupy stream positions `[0, ns)`, the phase draws
`[ns, 2ns)` and the error draws `[2ns, 2ns + ns*nf)` in row-major order. -/
noncomputable def make_sinusoidal_process (ns nf : ℕ)
    (start stop period phase_mean phase_std amplitude_mean amplitude_std
      error_std : ℝ) (g : Stream2) (i j : ℕ) : ℝ :=
  (amplitude_mean + amplitude_std * g i)
      * Real.sin (2 * Real.pi / period * linspace start stop nf j
          + (phase_mean + phase_std * g (ns + i)))
    + error_std * g (2 * ns + i * nf + j)

/-- Embedding of `make_multimodal_landmarks` at sample `i`, codomain dim
`j`, mode `k`, domain dim `l`: the interior base location
`linspace(start, stop, n_modes + 2)[k + 1]` plus the multivariate-normal
perturbation with covariance `std * I`, whose draws are consumed in
row-major order over `(n_samples, dim_codomain, n_modes, dim_domain)`. -/
noncomputable def make_multimodal_landmarks (ns nm dd dc : ℕ)
    (start stop std : ℝ) (g : Stream2) (i j k l : ℕ) : ℝ :=
  linspace start stop (nm + 2) (k + 1)
    + Real.sqrt std * g (((i * dc + j) * nm + k) * dd + l)

/-- Mixed-radix index bound: flattening a row-major pair of in-range
indices stays in range. -/
theorem mixed_radix {a b i j : ℕ} (hi : i < a) (hj : j < b) :
    i * b + j < a * b := by
  calc i * b + j < i * b + b := by omega
  _ = (i + 1) * b := by ring
  _ ≤ a * b := Nat.mul_le_mul_right b hi

/-- Claim C8: the generators draw all their randomness from the injected
random-state handle, reading only the finitely many stream positions their
arguments determine; hence two calls with identical arguments and handles
that agree on those draws (in particular, two handles with the same
seed/state) produce identical outputs, for both `make_sinusoidal_process`
and `make_multimodal_landmarks`. -/
theorem random_state_reproducibility (ns nf nm dd dc : ℕ)
    (start stop period phase_mean phase_std amplitude_mean amplitude_std
      error_std std : ℝ) (g1 g2 : Stream2)
    (hsin : ∀ t < 2 * ns + ns * nf, g1 t = g2 t)
    (hlm : ∀ t < ns * dc * nm * dd, g1 t = g2 t) :
    (∀ i < ns, ∀ j < nf,
        make_sinusoidal_process ns nf start stop period phase_mean
            phase_std amplitude_mean amplitude_std error_std g1 i j
          = make_sinusoidal_process ns nf start stop period phase_mean
              phase_std amplitude_mean amplitude_std error_std g2 i j)
      ∧ (∀ i < ns, ∀ j < dc, ∀ k < nm, ∀ l < dd,
          make_multimodal_landmarks ns nm dd dc start stop std g1 i j k l
            = make_multimodal_landmarks ns nm dd dc start stop std g2 i
                j k l) := by
  constructor
  · intro i hi j hj
    have hb1 : i < 2 * ns + ns * nf := by omega
    have hb2 : ns + i < 2 * ns + ns * nf := by omega
    have hb3 : 2 * ns + i * nf + j < 2 * ns + ns * nf := by
      have := mixed_radix hi hj
      omega
    unfold make_sinusoidal_process
    rw [hsin i hb1, hsin (ns + i) hb2, hsin (2 * ns + i * nf + j) hb3]
  · intro i hi j hj k hk l hl
    have hb : ((i * dc + j) * nm + k) * dd + l < ns * dc * nm * dd :=
      mixed_radix (mixed_radix (mixed_radix hi hj) hk) hl
    unfold make_multimodal_landmarks
    rw [hlm (((i * dc + j) * nm + k) * dd + l) hb]

/-- Witness for claim C8 at concrete inputs. -/
theorem random_state_reproducibility_witness :
    make_sinusoidal_process 1 1 0 1 1 0 1 1 1 1 (fun _ => 0) 0 0
        = make_sinusoidal_process 1 1 0 1 1 0 1 1 1 1 (fun _ => 0) 0 0
      ∧ make_multimodal_landmarks 1 1 1 1 0 1 1 (fun _ => 0) 0 0 0 0
          = make_multimodal_landmarks 1 1 1 1 0 1 1 (fun _ => 0) 0 0
              0 0 := by
  have h := random_state_reproducibility 1 1 1 1 1 0 1 1 0 1 1 1 1 1
    (fun _ => 0) (fun _ => 0) (fun t _ => rfl) (fun t _ => rfl)
  exact ⟨h.1 0 (by norm_num) 0 (by norm_num),
    h.2 0 (by norm_num) 0 (by norm_num) 0 (by norm_num) 0 (by norm_num)⟩

end RandomState

namespace Warping

/-- Embedding of the frequency `omega = 2 * pi / freq` with
`freq = shape_parameter + 1` in `make_random_warping`. -/
noncomputable def omega (K : ℝ) : ℝ := 2 * Real.pi / (K + 1)

/-- One sample's tangent function before centering, on the grid
`linspace(0, 1, n_features)`: the constant term
`sqrt(sigma) * c` (from `normal(scale=sqrt_sigma)`) plus the harmonics
`sqrt(2) * sqrt(sigma) * a_j * cos((j+2) * omega * t)
 + sqrt(2) * sqrt(sigma) * b_j * sin((j+2) * omega * t)` for
`j = 0, ..., n_random - 1` (the source's loop over `range(2, 2 +
n_random)`); `c`, `a`, `b` are the standard-normal draws. -/
noncomputable def v_raw (n nr : ℕ) (sigma K c : ℝ) (a b : ℕ → ℝ)
    (k : ℕ) : ℝ :=
  Real.sqrt sigma * c
    + ∑ j ∈ Finset.range nr,
        (Real.sqrt 2 * (Real.sqrt sigma * a j)
            * Real.cos (((j : ℝ) + 2) * omega K * linspace 0 1 n k)
          + Real.sqrt 2 * (Real.sqrt sigma * b j)
            * Real.sin (((j : ℝ) + 2) * omega K * linspace 0 1 n k))

/-- The centering step `v -= v.mean(axis=0)`. -/
noncomputable def v_centered (n nr : ℕ) (sigma K c : ℝ) (a b : ℕ → ℝ)
    (k : ℕ) : ℝ :=
  v_raw n nr sigma K c a b k
    - (∑ i ∈ Finset.range n, v_raw n nr sigma K c a b i) / n

/-- The norm step `v_norm = np.linalg.norm(v, axis=0) / sqrt(n_features)`. -/
noncomputable def v_norm (n nr : ℕ) (sigma K c : ℝ) (a b : ℕ → ℝ) : ℝ :=
  Real.sqrt (∑ i ∈ Finset.range n, v_centered n nr sigma K c a b i ^ 2)
    / Real.sqrt n

/-- The factor `np.sin(v_norm) / v_norm` applied by the exponential map in
`make_random_warping`.  The source applies it unconditionally, with no
special case for `v_norm == 0`. -/
noncomputable def exp_factor (r : ℝ) : ℝ := Real.sin r / r

/-- The exponential-map-and-square step:
`(sin(v_norm)/v_norm * v + cos(v_norm)) ** 2` pointwise. -/
noncomputable def v_mapped (n nr : ℕ) (sigma K c : ℝ) (a b : ℕ → ℝ)
    (k : ℕ) : ℝ :=
  (exp_factor (v_norm n nr sigma K c a b) * v_centered n nr sigma K c a b k
    + Real.cos (v_norm n nr sigma K c a b)) ^ 2

/-- The cumulative trapezoid integration
`scipy.integrate.cumtrapz(v, dx=1/n_features, initial=0)`: the value at
grid index `m` is the sum of the first `m` trapezoids. -/
noncomputable def raw_warp (n nr : ℕ) (sigma K c : ℝ) (a b : ℕ → ℝ)
    (m : ℕ) : ℝ :=
  ∑ k ∈ Finset.range m,
    (v_mapped n nr sigma K c a b k + v_mapped n nr sigma K c a b (k + 1))
      / 2 * (1 / (n : ℝ))

/-- Modelled from the spec: the external domain-rescaling routine
`normalize_warping` (imported from `.._utils`, not part of the given
sources) affinely rescales a warping over an `n`-point grid to the domain
`[a, b]` enforcing exact boundary fixation `γ(a) = a`, `γ(b) = b`. -/
noncomputable def normalize_warping (n : ℕ) (a b : ℝ) (g : ℕ → ℝ)
    (k : ℕ) : ℝ :=
  a + (b - a) * (g k - g 0) / (g (n - 1) - g 0)

/-- Embedding of one sample of `make_random_warping` over the `n_features`
grid: cumulative-trapezoid values rescaled to `[start, stop]`. -/
noncomputable def make_random_warping (n nr : ℕ)
    (sigma K start stop c : ℝ) (a b : ℕ → ℝ) (k : ℕ) : ℝ :=
  normalize_warping n start stop (raw_warp n nr sigma K c a b) k

/-- Centering makes the grid values of the tangent function sum to
zero. -/
theorem sum_v_centered (n nr : ℕ) (sigma K c : ℝ) (a b : ℕ → ℝ)
    (hn : 0 < n) :
    ∑ i ∈ Finset.range n, v_centered n nr sigma K c a b i = 0 := by
  have hne : (n : ℝ) ≠ 0 := Nat.cast_ne_zero.mpr hn.ne'
  unfold v_centered
  rw [Finset.sum_sub_distrib, Finset.sum_const, Finset.card_range,
    nsmul_eq_mul, mul_comm, div_mul_cancel₀ _ hne, sub_self]

/-- Every value of the squared exponential-map field is nonnegative. -/
theorem v_mapped_nonneg (n nr : ℕ) (sigma K c : ℝ) (a b : ℕ → ℝ)
    (k : ℕ) : 0 ≤ v_mapped n nr sigma K c a b k :=
  sq_nonneg _

/-- Each trapezoid contribution of the cumulative integration is
nonnegative. -/
theorem raw_warp_term_nonneg (n nr : ℕ) (sigma K c : ℝ) (a b : ℕ → ℝ)
    (k : ℕ) :
    0 ≤ (v_mapped n nr sigma K c a b k
        + v_mapped n nr sigma K c a b (k + 1)) / 2 * (1 / (n : ℝ)) := by
  have h1 := v_mapped_nonneg n nr sigma K c a b k
  have h2 := v_mapped_nonneg n nr sigma K c a b (k + 1)
  have h3 : (0 : ℝ) ≤ 1 / (n : ℝ) := by positivity
  have h4 : (0 : ℝ) ≤ (v_mapped n nr sigma K c a b k
      + v_mapped n nr sigma K c a b (k + 1)) / 2 := by positivity
  exact mul_nonneg h4 h3

/-- The cumulative-trapezoid values are nondecreasing in the grid
index. -/
theorem raw_warp_mono (n nr : ℕ) (sigma K c : ℝ) (a b : ℕ → ℝ)
    {m1 m2 : ℕ} (h : m1 ≤ m2) :
    raw_warp n nr sigma K c a b m1 ≤ raw_warp n nr sigma K c a b m2 :=
  Finset.sum_le_sum_of_subset_of_nonneg (Finset.range_subset.mpr h)
    (fun k _ _ => raw_warp_term_nonneg n nr sigma K c a b k)

/-- The exponential-map field cannot vanish on the whole grid when the
(scaled) grid norm `r` of the mean-zero tangent vector `v` is nonzero
(no division by zero occurs then, so real arithmetic is faithful to the
source's floating point): summing `sin(r)/r * v i + cos(r) = 0` over the
grid forces `cos r = 0`, hence `sin r ≠ 0`, hence `v ≡ 0` on the grid,
hence `r = 0`, a contradiction. -/
theorem mapped_field_not_all_zero (n : ℕ) (hn : 0 < n) (v : ℕ → ℝ)
    (hmean : ∑ i ∈ Finset.range n, v i = 0) (r : ℝ) (hr0 : r ≠ 0)
    (hrdef : r = Real.sqrt (∑ i ∈ Finset.range n, v i ^ 2) / Real.sqrt n)
    (hall : ∀ i < n, (Real.sin r / r * v i + Real.cos r) ^ 2 = 0) :
    False := by
  have hnr : (0 : ℝ) < n := Nat.cast_pos.mpr hn
  have hbase : ∀ i < n, Real.sin r / r * v i + Real.cos r = 0 := by
    intro i hi
    exact pow_eq_zero_iff (by norm_num : (2 : ℕ) ≠ 0) |>.mp (hall i hi)
  have hsum0 : ∑ i ∈ Finset.range n,
      (Real.sin r / r * v i + Real.cos r) = 0 :=
    Finset.sum_eq_zero fun i hi => hbase i (Finset.mem_range.1 hi)
  rw [Finset.sum_add_distrib, ← Finset.mul_sum, hmean, mul_zero,
    Finset.sum_const, Finset.card_range, nsmul_eq_mul, zero_add] at hsum0
  have hcos : Real.cos r = 0 := by
    rcases mul_eq_zero.1 hsum0 with h | h
    · exact absurd h (ne_of_gt hnr)
    · exact h
  have hsin : Real.sin r ≠ 0 := by
    intro hs
    have hpyth := Real.sin_sq_add_cos_sq r
    rw [hs, hcos] at hpyth
    norm_num at hpyth
  have hef : Real.sin r / r ≠ 0 := div_ne_zero hsin hr0
  have hv : ∀ i < n, v i = 0 := by
    intro i hi
    have h1 := hbase i hi
    rw [hcos, add_zero] at h1
    rcases mul_eq_zero.1 h1 with h | h
    · exact absurd h hef
    · exact h
  apply hr0
  have hTsum : ∑ i ∈ Finset.range n, v i ^ 2 = 0 :=
    Finset.sum_eq_zero fun i hi => by
      rw [hv i (Finset.mem_range.1 hi)]
      ring
  rw [hrdef, hTsum, Real.sqrt_zero, zero_div]

/-- The total cumulative-trapezoid mass over the grid is strictly
positive whenever the grid has at least two points and the sample's
centered tangent function does not have exactly zero norm. -/
theorem raw_warp_total_pos (n nr : ℕ) (sigma K c : ℝ) (a b : ℕ → ℝ)
    (hn : 2 ≤ n) (hr : v_norm n nr sigma K c a b ≠ 0) :
    0 < raw_warp n nr sigma K c a b (n - 1) := by
  have hnn : 0 ≤ raw_warp n nr sigma K c a b (n - 1) :=
    Finset.sum_nonneg fun k _ => raw_warp_term_nonneg n nr sigma K c a b k
  rcases eq_or_lt_of_le hnn with h0 | hpos
  · exfalso
    have hterm := (Finset.sum_eq_zero_iff_of_nonneg
      fun k _ => raw_warp_term_nonneg n nr sigma K c a b k).1 h0.symm
    have hstep : ∀ k < n - 1, v_mapped n nr sigma K c a b k = 0
        ∧ v_mapped n nr sigma K c a b (k + 1) = 0 := by
      intro k hk
      have h1 := hterm k (Finset.mem_range.mpr hk)
      have h2 : (1 : ℝ) / (n : ℝ) ≠ 0 := by
        have : (0 : ℝ) < n := by
          have : 0 < n := by omega
          exact_mod_cast this
        positivity
      have h3 : (v_mapped n nr sigma K c a b k
          + v_mapped n nr sigma K c a b (k + 1)) / 2 = 0 := by
        rcases mul_eq_zero.1 h1 with h | h
        · exact h
        · exact absurd h h2
      have h4 : v_mapped n nr sigma K c a b k
          + v_mapped n nr sigma K c a b (k + 1) = 0 := by
        rcases div_eq_zero_iff.1 h3 with h | h
        · exact h
        · norm_num at h
      have h5 := v_mapped_nonneg n nr sigma K c a b k
      have h6 := v_mapped_nonneg n nr sigma K c a b (k + 1)
      constructor <;> linarith
    have hw : ∀ i < n, v_mapped n nr sigma K c a b i = 0 := by
      intro i hi
      by_cases hc : i < n - 1
      · exact (hstep i hc).1
      · have hi2 : i = n - 1 := by omega
        have h5 := (hstep (n - 2) (by omega)).2
        have h6 : n - 2 + 1 = n - 1 := by omega
        rw [h6] at h5
        rw [hi2]
        exact h5
    exact mapped_field_not_all_zero n (by omega)
      (v_centered n nr sigma K c a b)
      (sum_v_centered n nr sigma K c a b (by omega))
      (v_norm n nr sigma K c a b) hr rfl
      (fun i hi => hw i hi)
  · exact hpos

/-- Over the idealized real-arithmetic pipeline, a sample whose centered
tangent function has nonzero grid norm produces a nondecreasing warping
with exact endpoints.  On those samples no division by zero occurs
anywhere in the source, so real arithmetic coincides with the source's
floating-point evaluation (see `make_random_warping_ieee_of_ne`). -/
theorem make_random_warping_monotone_endpoints_real
    (ns n nr : ℕ) (sigma K start stop : ℝ) (c : ℕ → ℝ)
    (a b : ℕ → ℕ → ℝ) (hns : 1 ≤ ns) (hn : 2 ≤ n) (hss : start < stop) :
    ∀ s < ns, v_norm n nr sigma K (c s) (a s) (b s) ≠ 0 →
      (∀ i j, i ≤ j →
          make_random_warping n nr sigma K start stop (c s) (a s) (b s) i
            ≤ make_random_warping n nr sigma K start stop (c s) (a s)
                (b s) j)
        ∧ make_random_warping n nr sigma K start stop (c s) (a s) (b s) 0
            = start
        ∧ make_random_warping n nr sigma K start stop (c s) (a s) (b s)
            (n - 1) = stop := by
  intro s _ hr
  have hD : 0 < raw_warp n nr sigma K (c s) (a s) (b s) (n - 1) :=
    raw_warp_total_pos n nr sigma K (c s) (a s) (b s) hn hr
  have h0 : raw_warp n nr sigma K (c s) (a s) (b s) 0 = 0 := by
    simp [raw_warp]
  refine ⟨?_, ?_, ?_⟩
  · intro i j hij
    unfold make_random_warping normalize_warping
    rw [h0]
    simp only [sub_zero]
    have hmono : raw_warp n nr sigma K (c s) (a s) (b s) i
        ≤ raw_warp n nr sigma K (c s) (a s) (b s) j :=
      raw_warp_mono n nr sigma K (c s) (a s) (b s) hij
    have h1 : (0 : ℝ) ≤ stop - start := by linarith
    gcongr
  · unfold make_random_warping normalize_warping
    simp
  · unfold make_random_warping normalize_warping
    rw [h0]
    simp only [sub_zero]
    rw [mul_div_assoc, div_self (ne_of_gt hD), mul_one]
    ring

/-- Claim C7, evaluated at the failing input: a sample whose random draws
are all zero has an identically zero centered tangent function, hence
`v_norm = 0`; the source computes `np.sin(v_norm) / v_norm` with no
special case, which at `v_norm = 0` is `0/0` -- NaN in IEEE arithmetic and
`0` under the total-division embedding -- and in either case not the limit
value `1` the specification requires. -/
theorem exp_factor_not_special_cased_at_zero_norm :
    v_norm 2 0 1 50 0 (fun _ => 0) (fun _ => 0) = 0
      ∧ exp_factor 0 = 0
      ∧ exp_factor 0 ≠ 1 := by
  refine ⟨?_, by simp [exp_factor], by simp [exp_factor]⟩
  unfold v_norm v_centered v_raw
  simp

/-- NaN-propagating IEEE addition on `Option ℝ`, where `none` stands for
NaN: both numeric inputs give the numeric sum, NaN propagates. -/
noncomputable def fadd : Option ℝ → Option ℝ → Option ℝ
  | some x, some y => some (x + y)
  | _, _ => none

/-- NaN-propagating IEEE subtraction on `Option ℝ`. -/
noncomputable def fsub : Option ℝ → Option ℝ → Option ℝ
  | some x, some y => some (x - y)
  | _, _ => none

/-- NaN-propagating IEEE multiplication on `Option ℝ` (in IEEE even
`0 * NaN` is NaN, so `none` always propagates). -/
noncomputable def fmul : Option ℝ → Option ℝ → Option ℝ
  | some x, some y => some (x * y)
  | _, _ => none

/-- NaN-propagating IEEE division on `Option ℝ`: a zero denominator gives
NaN.  This is exact for `0/0`; in this pipeline every zero-denominator
division has a zero numerator (the `sin(v_norm)/v_norm` factor, whose
numerator is `sin 0 = 0`, and the rescale of a warping whose value at the
first grid point is exactly 0). -/
noncomputable def fdiv : Option ℝ → Option ℝ → Option ℝ
  | some x, some y => if y = 0 then none else some (x / y)
  | _, _ => none

/-- IEEE-faithful evaluation of the exponential-map-and-square step: the
factor `np.sin(v_norm) / v_norm` is computed without a special case, so at
`v_norm == 0` it is `0/0`, NaN, and every grid value of the squared field
of that sample is NaN; otherwise the value agrees with `v_mapped`. -/
noncomputable def v_mapped_ieee (n nr : ℕ) (sigma K c : ℝ) (a b : ℕ → ℝ)
    (k : ℕ) : Option ℝ :=
  (fdiv (some (Real.sin (v_norm n nr sigma K c a b)))
      (some (v_norm n nr sigma K c a b))).map
    fun f => (f * v_centered n nr sigma K c a b k
      + Real.cos (v_norm n nr sigma K c a b)) ^ 2

/-- IEEE-faithful evaluation of the cumulative trapezoid integration
`cumtrapz(v, dx=1/n_features, initial=0)`: the leading value is the exact
literal `0` the source prepends, each later value adds one trapezoid, and
NaN field values propagate. -/
noncomputable def raw_warp_ieee (n nr : ℕ) (sigma K c : ℝ)
    (a b : ℕ → ℝ) : ℕ → Option ℝ
  | 0 => some 0
  | m + 1 =>
    fadd (raw_warp_ieee n nr sigma K c a b m)
      (fmul (fdiv (fadd (v_mapped_ieee n nr sigma K c a b m)
          (v_mapped_ieee n nr sigma K c a b (m + 1))) (some 2))
        (some (1 / (n : ℝ))))

/-- Modelled from the spec: the affine rescale of `normalize_warping`
under NaN-propagating IEEE arithmetic. -/
noncomputable def normalize_warping_ieee (n : ℕ) (a b : ℝ)
    (g : ℕ → Option ℝ) (k : ℕ) : Option ℝ :=
  fadd (some a)
    (fdiv (fmul (some (b - a)) (fsub (g k) (g 0)))
      (fsub (g (n - 1)) (g 0)))

/-- One sample of `make_random_warping` under NaN-propagating IEEE
arithmetic. -/
noncomputable def make_random_warping_ieee (n nr : ℕ)
    (sigma K start stop c : ℝ) (a b : ℕ → ℝ) (k : ℕ) : Option ℝ :=
  normalize_warping_ieee n start stop (raw_warp_ieee n nr sigma K c a b) k

/-- When the centered tangent has nonzero norm the exponential-map step
performs no division by zero and IEEE evaluation agrees with the
real-valued pipeline. -/
theorem v_mapped_ieee_of_ne (n nr : ℕ) (sigma K c : ℝ) (a b : ℕ → ℝ)
    (hr : v_norm n nr sigma K c a b ≠ 0) (k : ℕ) :
    v_mapped_ieee n nr sigma K c a b k
      = some (v_mapped n nr sigma K c a b k) := by
  unfold v_mapped_ieee v_mapped exp_factor
  simp [fdiv, hr]

/-- When the centered tangent has nonzero norm the IEEE cumulative
trapezoid values agree with the real-valued ones. -/
theorem raw_warp_ieee_of_ne (n nr : ℕ) (sigma K c : ℝ) (a b : ℕ → ℝ)
    (hr : v_norm n nr sigma K c a b ≠ 0) (m : ℕ) :
    raw_warp_ieee n nr sigma K c a b m
      = some (raw_warp n nr sigma K c a b m) := by
  induction m with
  | zero => simp [raw_warp_ieee, raw_warp]
  | succ m ih =>
    have hstep : raw_warp n nr sigma K c a b (m + 1)
        = raw_warp n nr sigma K c a b m
          + (v_mapped n nr sigma K c a b m
              + v_mapped n nr sigma K c a b (m + 1)) / 2 * (1 / (n : ℝ)) :=
      Finset.sum_range_succ _ m
    rw [hstep]
    simp [raw_warp_ieee, ih, v_mapped_ieee_of_ne n nr sigma K c a b hr,
      fadd, fmul, fdiv, div_mul_eq_mul_div, mul_comm, mul_div_assoc]

/-- When the centered tangent has nonzero norm (and the grid has at least
two points, so the total trapezoid mass is positive) the whole IEEE
evaluation of `make_random_warping` agrees with the real-valued
pipeline. -/
theorem make_random_warping_ieee_of_ne (n nr : ℕ)
    (sigma K start stop c : ℝ) (a b : ℕ → ℝ) (hn : 2 ≤ n)
    (hr : v_norm n nr sigma K c a b ≠ 0) (k : ℕ) :
    make_random_warping_ieee n nr sigma K start stop c a b k
      = some (make_random_warping n nr sigma K start stop c a b k) := by
  have hD : 0 < raw_warp n nr sigma K c a b (n - 1) :=
    raw_warp_total_pos n nr sigma K c a b hn hr
  have h0 : raw_warp n nr sigma K c a b 0 = 0 := by
    simp [raw_warp]
  have hDne : raw_warp n nr sigma K c a b (n - 1)
      - raw_warp n nr sigma K c a b 0 ≠ 0 := by
    rw [h0, sub_zero]
    exact ne_of_gt hD
  unfold make_random_warping_ieee normalize_warping_ieee
    make_random_warping normalize_warping
  rw [raw_warp_ieee_of_ne n nr sigma K c a b hr k,
    raw_warp_ieee_of_ne n nr sigma K c a b hr 0,
    raw_warp_ieee_of_ne n nr sigma K c a b hr (n - 1)]
  simp [fadd, fsub, fmul, fdiv, hDne]

/-- Claim C2 counterexample: at `n_features = 2`, `n_random = 0`,
`start = 0 < 1 = stop` and the all-zero draw outcome (inside the claim's
quantifiers; with `n_random = 0` the centered tangent is identically zero
for every draw), the IEEE evaluation of the warping at the first grid
point is NaN, not `start`: the factor `sin(0)/0` is NaN and propagates
through the pipeline, so the claimed exact endpoints and monotonicity fail
on the program. -/
theorem make_random_warping_nan_at_zero_norm :
    make_random_warping_ieee 2 0 1 50 0 1 0 (fun _ => 0) (fun _ => 0) 0
        = none
      ∧ (none : Option ℝ) ≠ some 0 := by
  constructor
  · have hnorm : v_norm 2 0 1 50 0 (fun _ => 0) (fun _ => 0) = 0 := by
      unfold v_norm v_centered v_raw
      simp
    have hw : ∀ k, v_mapped_ieee 2 0 1 50 0 (fun _ => 0) (fun _ => 0) k
        = none := by
      intro k
      unfold v_mapped_ieee
      rw [hnorm]
      simp [fdiv]
    have hraw1 : raw_warp_ieee 2 0 1 50 0 (fun _ => 0) (fun _ => 0) 1
        = none := by
      simp [raw_warp_ieee, hw, fadd, fmul, fdiv]
    unfold make_random_warping_ieee normalize_warping_ieee
    rw [show (2 : ℕ) - 1 = 1 from rfl, hraw1]
    simp [raw_warp_ieee, fadd, fsub, fmul, fdiv]
  · simp

/-- Claim C2 (amended): for every `n_samples ≥ 1`, `n_features ≥ 2`,
`start < stop` and every outcome of the random draws whose centered
tangent function has nonzero grid norm, the IEEE evaluation of each
warping produced by `make_random_warping` is numeric (no NaN),
nondecreasing along its evaluation grid, equals `start` exactly at the
first grid point and `stop` exactly at the last grid point.  (At an
exactly-zero-norm outcome the program instead produces NaN values; see the
counterexample and claim C7.) -/
theorem make_random_warping_monotone_endpoints_ieee
    (ns n nr : ℕ) (sigma K start stop : ℝ) (c : ℕ → ℝ)
    (a b : ℕ → ℕ → ℝ) (hns : 1 ≤ ns) (hn : 2 ≤ n) (hss : start < stop) :
    ∀ s < ns, v_norm n nr sigma K (c s) (a s) (b s) ≠ 0 →
      (∀ i j, i ≤ j → ∃ x y : ℝ,
          make_random_warping_ieee n nr sigma K start stop (c s) (a s)
              (b s) i = some x
            ∧ make_random_warping_ieee n nr sigma K start stop (c s)
                (a s) (b s) j = some y
            ∧ x ≤ y)
        ∧ make_random_warping_ieee n nr sigma K start stop (c s) (a s)
            (b s) 0 = some start
        ∧ make_random_warping_ieee n nr sigma K start stop (c s) (a s)
            (b s) (n - 1) = some stop := by
  intro s hs hr
  have hreal := make_random_warping_monotone_endpoints_real ns n nr sigma
    K start stop c a b hns hn hss s hs hr
  have hb := make_random_warping_ieee_of_ne n nr sigma K start stop (c s)
    (a s) (b s) hn hr
  refine ⟨?_, ?_, ?_⟩
  · intro i j hij
    exact ⟨_, _, hb i, hb j, hreal.1 i j hij⟩
  · rw [hb 0, hreal.2.1]
  · rw [hb (n - 1), hreal.2.2]

/-- A concrete nonzero-norm draw outcome for the witness: with
`n_features = 2`, `n_random = 1`, `sigma = 1`, `shape_parameter = 3`
(so `omega = pi/2`) and draws `c = 0`, `a 0 = 1`, `b 0 = 0`, the tangent
grid values are `sqrt 2 * cos 0 = sqrt 2` and
`sqrt 2 * cos pi = -sqrt 2`, already mean-centered, so the scaled norm is
`sqrt 4 / sqrt 2 = 2 / sqrt 2 ≠ 0`. -/
theorem witness_draw_norm_ne_zero :
    v_norm 2 1 1 3 0 (fun _ => 1) (fun _ => 0) ≠ 0 := by
  have h0 : linspace 0 1 2 0 = 0 := by
    unfold linspace
    norm_num
  have h1 : linspace 0 1 2 1 = 1 := by
    unfold linspace
    norm_num
  have hv0 : v_raw 2 1 1 3 0 (fun _ => 1) (fun _ => 0) 0 = Real.sqrt 2 := by
    unfold v_raw
    rw [h0]
    simp [Finset.sum_range_one, Real.sqrt_one]
  have hv1 : v_raw 2 1 1 3 0 (fun _ => 1) (fun _ => 0) 1
      = -Real.sqrt 2 := by
    unfold v_raw
    rw [h1, Finset.sum_range_one]
    have harg : (((0 : ℕ) : ℝ) + 2) * omega 3 * 1 = Real.pi := by
      unfold omega
      push_cast
      ring
    rw [harg, Real.cos_pi, Real.sin_pi]
    norm_num [Real.sqrt_one]
  have hsum : ∑ i ∈ Finset.range 2,
      v_raw 2 1 1 3 0 (fun _ => 1) (fun _ => 0) i = 0 := by
    rw [Finset.sum_range_succ, Finset.sum_range_one, hv0, hv1]
    ring
  have hvc0 : v_centered 2 1 1 3 0 (fun _ => 1) (fun _ => 0) 0
      = Real.sqrt 2 := by
    unfold v_centered
    rw [hv0, hsum]
    norm_num
  have hvc1 : v_centered 2 1 1 3 0 (fun _ => 1) (fun _ => 0) 1
      = -Real.sqrt 2 := by
    unfold v_centered
    rw [hv1, hsum]
    norm_num
  unfold v_norm
  rw [Finset.sum_range_succ, Finset.sum_range_one, hvc0, hvc1]
  have hx : Real.sqrt 2 ^ 2 + (-Real.sqrt 2) ^ 2 = 4 := by
    rw [neg_sq, Real.sq_sqrt (by norm_num : (0 : ℝ) ≤ 2)]
    norm_num
  rw [hx]
  have h4 : Real.sqrt 4 = 2 := by
    rw [show (4 : ℝ) = 2 ^ 2 by norm_num]
    exact Real.sqrt_sq (by norm_num)
  rw [h4]
  exact div_ne_zero two_ne_zero (Real.sqrt_ne_zero'.mpr (by norm_num))

/-- Witness for claim C2 (amended) at concrete inputs. -/
theorem make_random_warping_monotone_endpoints_ieee_witness :
    make_random_warping_ieee 2 1 1 3 0 1 0 (fun _ => 1) (fun _ => 0) 0
        = some 0
      ∧ make_random_warping_ieee 2 1 1 3 0 1 0 (fun _ => 1) (fun _ => 0) 1
          = some 1 := by
  have h := make_random_warping_monotone_endpoints_ieee 1 2 1 1 3 0 1
    (fun _ => 0) (fun _ _ => 1) (fun _ _ => 0) (le_refl 1) (le_refl 2)
    (by norm_num) 0 (by norm_num) witness_draw_norm_ne_zero
  exact ⟨h.2.1, h.2.2⟩

end Warping
